import Mathlib

/-!
Verification of the streaming conversational session manager of the
voice-chat repository.

The code under verification is the two submission entry points
`BottomSection.handleSend` (Sidebar.jsx) and `Main.handleQueryClick`
(Main component).  Both turn a user question into a `POST /chat` request,
read the chunked response body through a `TextDecoder` in streaming mode,
and mutate the React chat-history state through functional updaters.

The embedding below models:
* the WHATWG UTF-8 decoder state machine (the semantics of the JS
  `TextDecoder` used with `{ stream: true }`);
* the session state visible to the claims (`chatHistory`,
  `previousPrompt`, `input`, `loadings`, `showResult`, `recentPrompt`,
  `response`);
* each handler as the list of atomic state updates (React `set*` calls
  and the fetch) it performs, parameterised by the outcome of the network
  request.  The final state is the left fold of the updates; intermediate
  observable states are the scan.
-/

/-! ## WHATWG UTF-8 streaming decoder (JS `TextDecoder`) -/

/-- Decoder state of the WHATWG UTF-8 decoder: the partially accumulated
code point, how many continuation bytes were seen and are still needed,
and the admissible range for the next continuation byte. -/
structure Utf8State where
  codePoint : Nat
  bytesSeen : Nat
  bytesNeeded : Nat
  lowerBoundary : Nat
  upperBoundary : Nat
  deriving Repr, DecidableEq

def Utf8State.start : Utf8State :=
  { codePoint := 0, bytesSeen := 0, bytesNeeded := 0
    lowerBoundary := 0x80, upperBoundary := 0xBF }

/-- The Unicode replacement character U+FFFD emitted for malformed input. -/
def replacementChar : Char := Char.ofNat 0xFFFD

/-- Handle one byte in the initial decoder state (`bytesNeeded = 0`):
either an ASCII byte, a multi-byte lead byte, or a malformed byte that
yields a replacement character. -/
def utf8StepStart (b : Nat) : Utf8State × List Char :=
  if b ≤ 0x7F then
    (Utf8State.start, [Char.ofNat b])
  else if 0xC2 ≤ b ∧ b ≤ 0xDF then
    ({ Utf8State.start with bytesNeeded := 1, codePoint := b % 32 }, [])
  else if 0xE0 ≤ b ∧ b ≤ 0xEF then
    ({ Utf8State.start with
        bytesNeeded := 2
        codePoint := b % 16
        lowerBoundary := if b = 0xE0 then 0xA0 else 0x80
        upperBoundary := if b = 0xED then 0x9F else 0xBF }, [])
  else if 0xF0 ≤ b ∧ b ≤ 0xF4 then
    ({ Utf8State.start with
        bytesNeeded := 3
        codePoint := b % 8
        lowerBoundary := if b = 0xF0 then 0x90 else 0x80
        upperBoundary := if b = 0xF4 then 0x8F else 0xBF }, [])
  else
    (Utf8State.start, [replacementChar])

/-- Handle one byte of input: the per-byte transition of the WHATWG UTF-8
decoder.  A continuation byte outside the admissible range emits a
replacement character and the offending byte is reprocessed from the
initial state ("restore byte to stream" in the WHATWG algorithm). -/
def utf8Step (s : Utf8State) (b : Nat) : Utf8State × List Char :=
  if s.bytesNeeded = 0 then
    utf8StepStart b
  else if b < s.lowerBoundary ∨ s.upperBoundary < b then
    let d := utf8StepStart b
    (d.1, replacementChar :: d.2)
  else
    let cp := s.codePoint * 64 + b % 64
    if s.bytesSeen + 1 = s.bytesNeeded then
      (Utf8State.start, [Char.ofNat cp])
    else
      ({ codePoint := cp, bytesSeen := s.bytesSeen + 1, bytesNeeded := s.bytesNeeded
         lowerBoundary := 0x80, upperBoundary := 0xBF }, [])

/-- Decode a list of bytes from a given decoder state, returning the new
state and the decoded characters.  This is one `decode(value, {stream: true})`
call of the JS `TextDecoder`. -/
def utf8DecodeBytes (s : Utf8State) : List Nat → Utf8State × List Char
  | [] => (s, [])
  | b :: bs =>
    let d := utf8Step s b
    let rest := utf8DecodeBytes d.1 bs
    (rest.1, d.2 ++ rest.2)

/-- Decode a sequence of byte chunks, threading the decoder state across
chunk boundaries exactly as repeated `decode(value, {stream: true})` calls
on one `TextDecoder` instance do. -/
def utf8DecodeChunks (s : Utf8State) : List (List Nat) → Utf8State × List Char
  | [] => (s, [])
  | c :: cs =>
    let d := utf8DecodeBytes s c
    let rest := utf8DecodeChunks d.1 cs
    (rest.1, d.2 ++ rest.2)

/-- End-of-stream flush of the WHATWG decoder: a pending incomplete
sequence is replaced by U+FFFD.  The JS code never performs this final
non-streaming `decode()` call. -/
def utf8Flush (s : Utf8State) : List Char :=
  if s.bytesNeeded = 0 then [] else [replacementChar]

/-- Text produced by decoding a chunk sequence from the fresh decoder,
without the end-of-stream flush: this is exactly the accumulated
`accumulatedResponse` string of the code's read loop. -/
def decodedText (s : Utf8State) (cs : List (List Nat)) : String :=
  String.mk (utf8DecodeChunks s cs).2

/-- Modelled from the spec: the ChunkDecoder contract `decode(bytes, isFinal)`
in which, on the final chunk, "any still-incomplete residual is decoded with
replacement-character substitution rather than silently dropped".  The code
itself has no such final flush; this definition exists to compare the code's
behaviour against the spec's words. -/
def specChunkDecodeFinal (cs : List (List Nat)) : String :=
  let d := utf8DecodeChunks Utf8State.start cs
  String.mk (d.2 ++ utf8Flush d.1)

theorem utf8DecodeBytes_append (l₁ l₂ : List Nat) : ∀ s : Utf8State,
    utf8DecodeBytes s (l₁ ++ l₂) =
      ((utf8DecodeBytes (utf8DecodeBytes s l₁).1 l₂).1,
        (utf8DecodeBytes s l₁).2 ++ (utf8DecodeBytes (utf8DecodeBytes s l₁).1 l₂).2) := by
  induction l₁ with
  | nil => intro s; simp [utf8DecodeBytes]
  | cons b bs ih =>
    intro s
    simp only [List.cons_append, utf8DecodeBytes, List.append_eq, ih, List.append_assoc]

/-- Streaming decode is chunk-boundary invariant: decoding a list of chunks
with a threaded decoder state gives exactly the decode of the concatenated
bytes.  In particular a multi-byte character split across two chunk
boundaries is neither dropped nor corrupted. -/
theorem utf8DecodeChunks_eq_flatten (cs : List (List Nat)) : ∀ s : Utf8State,
    utf8DecodeChunks s cs = utf8DecodeBytes s cs.flatten := by
  induction cs with
  | nil => intro s; simp [utf8DecodeChunks, utf8DecodeBytes]
  | cons c cs ih =>
    intro s
    simp only [utf8DecodeChunks, List.flatten_cons, utf8DecodeBytes_append, ih]

/-! ## Session data model

The observable React state used by the two handlers.  A chat entry in the
code is a JS object `{ type, text, loading }`; user entries are created
without a `loading` field, which is modelled by `Option Bool`. -/

inductive Role where
  | user
  | bot
  deriving Repr, DecidableEq

/-- One entry of `chatHistory`: `{ type: ..., text: ..., loading: ... }`.
User turns are created without a `loading` field (`none`). -/
structure Turn where
  role : Role
  text : String
  loading : Option Bool
  deriving Repr, DecidableEq

/-- The user turn appended on submission: `{ type: "user", text: q }`. -/
def userTurn (q : String) : Turn := { role := Role.user, text := q, loading := none }

/-- The placeholder bot turn appended on submission:
`{ type: "bot", text: "", loading: true }`.  `loading = true` is the code's
Pending/Streaming marker (the UI renders a loader for it). -/
def pendingBotTurn : Turn := { role := Role.bot, text := "", loading := some true }

/-- The React state touched by the handlers, as provided by the Context
provider and the `Main` component. -/
structure SessionState where
  chatHistory : List Turn
  previousPrompt : List String
  input : String
  loadings : Bool
  showResult : Bool
  recentPrompt : String
  response : String
  deriving Repr, DecidableEq

/-- The fixed user-facing error message of both catch blocks. -/
def errorMessage : String := "An error occurred. Please try again."

/-- The functional updater of the submission step:
`prev => [...prev, { type: "user", text: q }, { type: "bot", text: "", loading: true }]`. -/
def appendPairUpdater (q : String) (prev : List Turn) : List Turn :=
  prev ++ [userTurn q, pendingBotTurn]

/-- Apply `f index turn` to every element, indices starting at `i`:
the semantics of the JS `prev.map((chat, index) => ...)` callbacks. -/
def mapTurnsFrom (f : Nat → Turn → Turn) : Nat → List Turn → List Turn
  | _, [] => []
  | i, t :: ts => f i t :: mapTurnsFrom f (i + 1) ts

/-- The per-chunk functional updater of the read loop:
`prev => prev.map((chat, index) => index === loaderIndex + 1
  ? { ...chat, text: accumulatedResponse, loading: false } : chat)`. -/
def streamUpdater (loaderIndex : Nat) (textVal : String) (prev : List Turn) : List Turn :=
  mapTurnsFrom
    (fun index chat =>
      if index = loaderIndex + 1 then { chat with text := textVal, loading := some false }
      else chat)
    0 prev

/-- JS runtime errors relevant to the embedding. -/
inductive JsError where
  | referenceError
  deriving Repr, DecidableEq

/-- Lexical lookup of `loaderIndex` from inside the catch blocks.  In both
handlers `loaderIndex` is declared with `const` inside the `try` block
(Sidebar.jsx line 145, Main line 40), so it is block-scoped to the `try`
block and not in scope in the `catch` block (Sidebar.jsx line 200, Main
line 91); the lookup fails and evaluating the identifier throws a
`ReferenceError`. -/
def loaderIndexInCatchScope : Option Nat := none

/-- The catch-block updater
`prev => prev.map((chat, index) => index === loaderIndex + 1
  ? { ...chat, text: errorMessage, loading: false } : chat)`.
On a non-empty list the `map` callback evaluates `loaderIndex`, which is
not in scope in the catch block, so the updater throws a `ReferenceError`
instead of producing an updated history. -/
def catchUpdater (prev : List Turn) : Except JsError (List Turn) :=
  if prev.isEmpty then Except.ok []
  else
    match loaderIndexInCatchScope with
    | none => Except.error JsError.referenceError
    | some li => Except.ok (streamUpdater li errorMessage prev)

/-! ## The handlers as traces of atomic state updates -/

/-- The fixed request shape `{ question, provider: "openai", model: "gpt-4o-mini" }`
sent by both handlers to `POST /chat`. -/
structure ChatRequest where
  question : String
  provider : String
  model : String
  deriving Repr, DecidableEq

/-- One atomic state update performed by a handler: a React state setter
call (with its functional updater resolved against the session state it is
applied to) or the issuing of the network request. -/
inductive Event where
  | setShowResult (b : Bool)
  | setLoadings (b : Bool)
  | setRecentPrompt (q : String)
  | appendTurnPair (q : String)
  | setInput (t : String)
  | fetchRequest (r : ChatRequest)
  | streamUpdate (loaderIndex : Nat) (accumulated : String)
  | setResponse (t : String)
  | appendPreviousPrompt (q : String)
  | catchUpdate
  deriving Repr, DecidableEq

/-- Effect of one atomic update on the session state.  `fetchRequest` has
no state effect (it is recorded so that "a network request was issued" is
observable).  `catchUpdate` applies `catchUpdater`; since that throws a
`ReferenceError` on every non-empty history, the state is left unchanged
in that case (React never receives an updated array). -/
def applyEvent (s : SessionState) : Event → SessionState
  | Event.setShowResult b => { s with showResult := b }
  | Event.setLoadings b => { s with loadings := b }
  | Event.setRecentPrompt q => { s with recentPrompt := q }
  | Event.appendTurnPair q => { s with chatHistory := appendPairUpdater q s.chatHistory }
  | Event.setInput t => { s with input := t }
  | Event.fetchRequest _ => s
  | Event.streamUpdate li acc => { s with chatHistory := streamUpdater li acc s.chatHistory }
  | Event.setResponse t => { s with response := t }
  | Event.appendPreviousPrompt q => { s with previousPrompt := s.previousPrompt ++ [q] }
  | Event.catchUpdate =>
    match catchUpdater s.chatHistory with
    | Except.error _ => s
    | Except.ok h => { s with chatHistory := h }

/-- Whether applying an event raises an uncaught `ReferenceError`. -/
def eventRaisesReferenceError (s : SessionState) : Event → Bool
  | Event.catchUpdate =>
    match catchUpdater s.chatHistory with
    | Except.error _ => true
    | Except.ok _ => false
  | _ => false

/-- Outcome of the `fetch` call and of reading the response body:
connection failure, or a response with a status, the byte chunks the body
delivers, and whether a read failure interrupts the stream after those
chunks (instead of a clean end-of-stream). -/
inductive FetchOutcome where
  | connectFail
  | response (status : Nat) (chunks : List (List Nat)) (readFail : Bool)
  deriving Repr, DecidableEq

/-- `res.ok` of the Fetch API: status in the 2xx range. -/
def resOk (status : Nat) : Bool := 200 ≤ status && status < 300

/-- The `fetch("http://localhost:8000/chat", ...)` request event with the
fixed provider and model constants. -/
def requestEvent (q : String) : Event :=
  Event.fetchRequest { question := q, provider := "openai", model := "gpt-4o-mini" }

/-- Events of the read loop: one `setChatHistory` per received chunk,
carrying the accumulated decoded text so far.  `st` is the decoder state
and `acc` the accumulated string entering the loop iteration. -/
def chunkEvents (loaderIndex : Nat) : Utf8State → String → List (List Nat) → List Event
  | _, _, [] => []
  | st, acc, c :: cs =>
    let d := utf8DecodeBytes st c
    let acc₂ := acc ++ String.mk d.2
    Event.streamUpdate loaderIndex acc₂ :: chunkEvents loaderIndex d.1 acc₂ cs

/-- Catch-block events of `BottomSection.handleSend` (Sidebar.jsx):
`setResponse(errorMessage)` then the failing `setChatHistory` updater. -/
def sidebarCatchEvents : List Event :=
  [Event.setResponse errorMessage, Event.catchUpdate]

/-- Catch-block events of `Main.handleQueryClick`: only the failing
`setChatHistory` updater. -/
def mainCatchEvents : List Event :=
  [Event.catchUpdate]

/-- The sequence of atomic state updates performed by
`BottomSection.handleSend` (Sidebar.jsx lines 135-209) for a given fetch
outcome.  An empty `input` returns before doing anything
(`if (!input) return`); otherwise the handler runs `setShowResult(true)`,
`setLoadings(true)`, `setRecentPrompt(input)`, appends the user/bot turn
pair at `loaderIndex = chatHistory.length`, clears the input, issues the
request, runs the read loop or the catch block, and finally
`setLoadings(false)`. -/
def handleSendTrace (s : SessionState) (outcome : FetchOutcome) : List Event :=
  if s.input = "" then []
  else
    [Event.setShowResult true, Event.setLoadings true, Event.setRecentPrompt s.input,
      Event.appendTurnPair s.input, Event.setInput "", requestEvent s.input]
    ++ (match outcome with
        | FetchOutcome.connectFail => sidebarCatchEvents
        | FetchOutcome.response status chunks readFail =>
          if resOk status then
            chunkEvents s.chatHistory.length Utf8State.start "" chunks
            ++ (if readFail then sidebarCatchEvents
                else [Event.setResponse (decodedText Utf8State.start chunks),
                      Event.appendPreviousPrompt s.input])
          else sidebarCatchEvents)
    ++ [Event.setLoadings false]

/-- The sequence of atomic state updates performed by
`Main.handleQueryClick(query)` (Main lines 33-99) for a given fetch
outcome.  Unlike `handleSend` there is no empty-question guard and no
`setInput`/`setResponse` calls; the success path only appends the query to
`previousPrompt`. -/
def handleQueryClickTrace (query : String) (s : SessionState) (outcome : FetchOutcome) :
    List Event :=
  [Event.setShowResult true, Event.setLoadings true, Event.setRecentPrompt query,
    Event.appendTurnPair query, requestEvent query]
  ++ (match outcome with
      | FetchOutcome.connectFail => mainCatchEvents
      | FetchOutcome.response status chunks readFail =>
        if resOk status then
          chunkEvents s.chatHistory.length Utf8State.start "" chunks
          ++ (if readFail then mainCatchEvents
              else [Event.appendPreviousPrompt query])
        else mainCatchEvents)
  ++ [Event.setLoadings false]

/-- Final session state after `BottomSection.handleSend`. -/
def handleSend (s : SessionState) (outcome : FetchOutcome) : SessionState :=
  List.foldl applyEvent s (handleSendTrace s outcome)

/-- Final session state after `Main.handleQueryClick`. -/
def handleQueryClick (query : String) (s : SessionState) (outcome : FetchOutcome) :
    SessionState :=
  List.foldl applyEvent s (handleQueryClickTrace query s outcome)

/-- The observable session states during a run: the initial state and the
state after each atomic update. -/
def runStates (s : SessionState) (tr : List Event) : List SessionState :=
  List.scanl applyEvent s tr

/-! ## Updater lemmas -/

@[simp] theorem length_mapTurnsFrom (f : Nat → Turn → Turn) :
    ∀ (i : Nat) (l : List Turn), (mapTurnsFrom f i l).length = l.length := by
  intro i l
  induction l generalizing i with
  | nil => rfl
  | cons t ts ih => simp [mapTurnsFrom, ih]

theorem get?_mapTurnsFrom (f : Nat → Turn → Turn) :
    ∀ (l : List Turn) (i j : Nat),
      (mapTurnsFrom f i l).get? j = (l.get? j).map (f (i + j)) := by
  intro l
  induction l with
  | nil => intro i j; simp [mapTurnsFrom]
  | cons t ts ih =>
    intro i j
    cases j with
    | zero => simp [mapTurnsFrom]
    | succ j =>
      simp only [mapTurnsFrom, List.get?_cons_succ, ih (i + 1) j]
      have : i + 1 + j = i + (j + 1) := by omega
      rw [this]

theorem mapTurnsFrom_congr {f g : Nat → Turn → Turn} (hfg : ∀ j t, f j t = g j t) :
    ∀ (i : Nat) (l : List Turn), mapTurnsFrom f i l = mapTurnsFrom g i l := by
  intro i l
  induction l generalizing i with
  | nil => rfl
  | cons t ts ih => simp [mapTurnsFrom, hfg, ih]

theorem mapTurnsFrom_mapTurnsFrom (f g : Nat → Turn → Turn) :
    ∀ (i : Nat) (l : List Turn),
      mapTurnsFrom f i (mapTurnsFrom g i l) = mapTurnsFrom (fun j t => f j (g j t)) i l := by
  intro i l
  induction l generalizing i with
  | nil => rfl
  | cons t ts ih => simp [mapTurnsFrom, ih]

theorem mapTurnsFrom_append (f : Nat → Turn → Turn) :
    ∀ (l₁ l₂ : List Turn) (i : Nat),
      mapTurnsFrom f i (l₁ ++ l₂) = mapTurnsFrom f i l₁ ++ mapTurnsFrom f (i + l₁.length) l₂ := by
  intro l₁
  induction l₁ with
  | nil => intro l₂ i; simp [mapTurnsFrom]
  | cons t ts ih =>
    intro l₂ i
    simp only [List.cons_append, mapTurnsFrom, List.append_eq, ih, List.length_cons]
    have : i + 1 + ts.length = i + (ts.length + 1) := by omega
    rw [this]

theorem mapTurnsFrom_id_of (f : Nat → Turn → Turn) :
    ∀ (l : List Turn) (i : Nat), (∀ j, i ≤ j → j < i + l.length → ∀ t, f j t = t) →
      mapTurnsFrom f i l = l := by
  intro l
  induction l with
  | nil => intro i _; rfl
  | cons t ts ih =>
    intro i hf
    simp only [mapTurnsFrom, List.length_cons] at *
    rw [hf i (Nat.le_refl i) (by omega) t,
      ih (i + 1) fun j h₁ h₂ u => hf j (by omega) (by omega) u]

@[simp] theorem length_streamUpdater (li : Nat) (t : String) (prev : List Turn) :
    (streamUpdater li t prev).length = prev.length := by
  simp [streamUpdater]

theorem get?_streamUpdater (li : Nat) (t : String) (prev : List Turn) (j : Nat) :
    (streamUpdater li t prev).get? j =
      (prev.get? j).map
        (fun chat =>
          if j = li + 1 then { chat with text := t, loading := some false } else chat) := by
  simp only [streamUpdater, get?_mapTurnsFrom, Nat.zero_add]

/-- Frame part of the per-chunk updater: every index other than
`loaderIndex + 1` is left unchanged. -/
theorem get?_streamUpdater_ne (li : Nat) (t : String) (prev : List Turn) (j : Nat)
    (hj : j ≠ li + 1) : (streamUpdater li t prev).get? j = prev.get? j := by
  rw [get?_streamUpdater]
  cases prev.get? j with
  | none => rfl
  | some c => simp [hj]

/-- Successive per-chunk updates overwrite: only the last accumulated text
remains.  With equal texts this is idempotence of the update. -/
theorem streamUpdater_streamUpdater (li : Nat) (t₁ t₂ : String) (prev : List Turn) :
    streamUpdater li t₂ (streamUpdater li t₁ prev) = streamUpdater li t₂ prev := by
  simp only [streamUpdater, mapTurnsFrom_mapTurnsFrom]
  refine mapTurnsFrom_congr (fun j c => ?_) 0 prev
  by_cases hj : j = li + 1 <;> simp [hj]

/-- The per-chunk updater applied to the freshly appended turn pair rewrites
exactly the placeholder bot turn. -/
theorem streamUpdater_appendPair (t : String) (h₀ : List Turn) (u b : Turn) :
    streamUpdater h₀.length t (h₀ ++ [u, b]) =
      h₀ ++ [u, { b with text := t, loading := some false }] := by
  simp only [streamUpdater, mapTurnsFrom_append]
  rw [mapTurnsFrom_id_of _ h₀ 0 (fun j h₁ h₂ c => by simp; omega)]
  simp [mapTurnsFrom]

@[simp] theorem applyEvent_catchUpdate (s : SessionState) :
    applyEvent s Event.catchUpdate = s := by
  cases s with
  | mk ch pp inp ld sr rp resp =>
    cases ch <;> simp [applyEvent, catchUpdater, loaderIndexInCatchScope]

theorem string_mk_append (a b : List Char) :
    String.mk a ++ String.mk b = String.mk (a ++ b) := rfl

/-! ## Trace structure helpers -/

/-- Whether an event is a `setLoadings` call. -/
def isSetLoadings : Event → Bool
  | Event.setLoadings _ => true
  | _ => false

/-- Whether an event is the turn-pair appending `setChatHistory` call. -/
def isAppendTurnPair : Event → Bool
  | Event.appendTurnPair _ => true
  | _ => false

theorem loadings_applyEvent (s : SessionState) (e : Event) (he : isSetLoadings e = false) :
    (applyEvent s e).loadings = s.loadings := by
  cases e with
  | setLoadings b => exact absurd he (by simp [isSetLoadings])
  | catchUpdate => rw [applyEvent_catchUpdate]
  | setShowResult b => rfl
  | setRecentPrompt q => rfl
  | appendTurnPair q => rfl
  | setInput t => rfl
  | fetchRequest r => rfl
  | streamUpdate li acc => rfl
  | setResponse t => rfl
  | appendPreviousPrompt q => rfl

theorem length_applyEvent (s : SessionState) (e : Event) (he : isAppendTurnPair e = false) :
    (applyEvent s e).chatHistory.length = s.chatHistory.length := by
  cases e with
  | appendTurnPair q => exact absurd he (by simp [isAppendTurnPair])
  | catchUpdate => rw [applyEvent_catchUpdate]
  | setShowResult b => rfl
  | setLoadings b => rfl
  | setRecentPrompt q => rfl
  | setInput t => rfl
  | fetchRequest r => rfl
  | streamUpdate li acc => simp [applyEvent]
  | setResponse t => rfl
  | appendPreviousPrompt q => rfl

/-- Every event of the read loop is a per-chunk update targeting the fixed
`loaderIndex`. -/
theorem mem_chunkEvents (li : Nat) :
    ∀ (cs : List (List Nat)) (st : Utf8State) (acc : String) (e : Event),
      e ∈ chunkEvents li st acc cs → ∃ t, e = Event.streamUpdate li t := by
  intro cs
  induction cs with
  | nil => intro st acc e he; simp [chunkEvents] at he
  | cons c cs ih =>
    intro st acc e he
    simp only [chunkEvents, List.mem_cons] at he
    cases he with
    | inl h => exact ⟨_, h⟩
    | inr h => exact ih _ _ e h

theorem loadings_scanl (l : List Event) : ∀ (s : SessionState),
    (∀ e ∈ l, isSetLoadings e = false) →
    ∀ st ∈ List.scanl applyEvent s l, st.loadings = s.loadings := by
  induction l with
  | nil =>
    intro s _ st hst
    rw [List.scanl_nil, List.mem_singleton] at hst
    rw [hst]
  | cons e l ih =>
    intro s hl st hst
    rw [List.scanl_cons, List.singleton_append, List.mem_cons] at hst
    cases hst with
    | inl h => rw [h]
    | inr h =>
      rw [ih (applyEvent s e) (fun e' he' => hl e' (List.mem_cons_of_mem e he')) st h,
        loadings_applyEvent s e (hl e (List.mem_cons_self e l))]

theorem length_scanl_no_append (l : List Event) : ∀ (s : SessionState),
    (∀ e ∈ l, isAppendTurnPair e = false) →
    ∀ st ∈ List.scanl applyEvent s l, st.chatHistory.length = s.chatHistory.length := by
  induction l with
  | nil =>
    intro s _ st hst
    rw [List.scanl_nil, List.mem_singleton] at hst
    rw [hst]
  | cons e l ih =>
    intro s hl st hst
    rw [List.scanl_cons, List.singleton_append, List.mem_cons] at hst
    cases hst with
    | inl h => rw [h]
    | inr h =>
      rw [ih (applyEvent s e) (fun e' he' => hl e' (List.mem_cons_of_mem e he')) st h,
        length_applyEvent s e (hl e (List.mem_cons_self e l))]

theorem dropLast_cons_ne_nil {α : Type} (a : α) (l : List α) (h : l ≠ []) :
    (a :: l).dropLast = a :: l.dropLast := by
  cases l with
  | nil => exact absurd rfl h
  | cons b l => rfl

theorem scanl_ne_nil (l : List Event) (s : SessionState) :
    List.scanl applyEvent s l ≠ [] := by
  intro h
  have h₂ : (List.scanl applyEvent s l).length = l.length + 1 := List.length_scanl s l
  rw [h] at h₂
  simp at h₂

/-- Running any event list that touches `loadings` only through a final
`setLoadings(false)` from a state with `loadings = true`: every
intermediate state still shows `loadings = true`, and the final state shows
`loadings = false`. -/
theorem loadings_mid (mid : List Event) : ∀ (s : SessionState), s.loadings = true →
    (∀ e ∈ mid, isSetLoadings e = false) →
    (∀ st ∈ (List.scanl applyEvent s (mid ++ [Event.setLoadings false])).dropLast,
        st.loadings = true)
    ∧ (List.foldl applyEvent s (mid ++ [Event.setLoadings false])).loadings = false := by
  induction mid with
  | nil =>
    intro s hs _
    constructor
    · intro st hst
      simp only [List.nil_append, List.scanl_cons, List.scanl_nil, List.singleton_append,
        List.dropLast_cons₂, List.dropLast_single, List.mem_singleton] at hst
      rw [hst]; exact hs
    · simp [applyEvent]
  | cons e mid ih =>
    intro s hs hmid
    have he : isSetLoadings e = false := hmid e (List.mem_cons_self e mid)
    have hs' : (applyEvent s e).loadings = true := by rw [loadings_applyEvent s e he]; exact hs
    have ih' := ih (applyEvent s e) hs' (fun e' he' => hmid e' (List.mem_cons_of_mem e he'))
    constructor
    · intro st hst
      rw [List.cons_append, List.scanl_cons, List.singleton_append,
        dropLast_cons_ne_nil _ _ (scanl_ne_nil _ _), List.mem_cons] at hst
      cases hst with
      | inl h => rw [h]; exact hs
      | inr h => exact ih'.1 st h
    · rw [List.cons_append, List.foldl_cons]
      exact ih'.2

/-- Structure of every accepted `handleSend` trace: the fixed five-step
prologue and the request, then branch-dependent events none of which touch
`loadings` or append turns, then the single `setLoadings(false)` of the
`finally` block. -/
theorem handleSendTrace_shape (s : SessionState) (outcome : FetchOutcome)
    (h : ¬s.input = "") :
    ∃ tail, handleSendTrace s outcome =
      Event.setShowResult true :: Event.setLoadings true :: Event.setRecentPrompt s.input ::
        Event.appendTurnPair s.input :: Event.setInput "" :: requestEvent s.input ::
          (tail ++ [Event.setLoadings false])
      ∧ ∀ e ∈ tail, isSetLoadings e = false ∧ isAppendTurnPair e = false := by
  cases outcome with
  | connectFail =>
    refine ⟨sidebarCatchEvents, ?_, ?_⟩
    · simp [handleSendTrace, h]
    · intro e he
      simp only [sidebarCatchEvents, List.mem_cons, List.mem_singleton] at he
      rcases he with rfl | rfl | h'
      · exact ⟨rfl, rfl⟩
      · exact ⟨rfl, rfl⟩
      · exact absurd h' (List.not_mem_nil e)
  | response status chunks readFail =>
    cases hst : resOk status with
    | false =>
      refine ⟨sidebarCatchEvents, ?_, ?_⟩
      · simp [handleSendTrace, h, hst]
      · intro e he
        simp only [sidebarCatchEvents, List.mem_cons, List.mem_singleton] at he
        rcases he with rfl | rfl | h'
        · exact ⟨rfl, rfl⟩
        · exact ⟨rfl, rfl⟩
        · exact absurd h' (List.not_mem_nil e)
    | true =>
      refine ⟨chunkEvents s.chatHistory.length Utf8State.start "" chunks
        ++ (if readFail then sidebarCatchEvents
            else [Event.setResponse (decodedText Utf8State.start chunks),
                  Event.appendPreviousPrompt s.input]), ?_, ?_⟩
      · simp [handleSendTrace, h, hst]
      · intro e he
        rw [List.mem_append] at he
        cases he with
        | inl h' =>
          obtain ⟨t, rfl⟩ := mem_chunkEvents _ _ _ _ e h'
          exact ⟨rfl, rfl⟩
        | inr h' =>
          cases readFail with
          | true =>
            simp only [if_true, sidebarCatchEvents, List.mem_cons, List.mem_singleton] at h'
            rcases h' with rfl | rfl | h''
            · exact ⟨rfl, rfl⟩
            · exact ⟨rfl, rfl⟩
            · exact absurd h'' (List.not_mem_nil e)
          | false =>
            simp only [if_neg Bool.false_ne_true, List.mem_cons, List.mem_singleton] at h'
            rcases h' with rfl | rfl | h''
            · exact ⟨rfl, rfl⟩
            · exact ⟨rfl, rfl⟩
            · exact absurd h'' (List.not_mem_nil e)

/-- Structure of every `handleQueryClick` trace (always accepted: the
handler has no empty-question guard). -/
theorem handleQueryClickTrace_shape (q : String) (s : SessionState) (outcome : FetchOutcome) :
    ∃ tail, handleQueryClickTrace q s outcome =
      Event.setShowResult true :: Event.setLoadings true :: Event.setRecentPrompt q ::
        Event.appendTurnPair q :: requestEvent q :: (tail ++ [Event.setLoadings false])
      ∧ ∀ e ∈ tail, isSetLoadings e = false ∧ isAppendTurnPair e = false := by
  cases outcome with
  | connectFail =>
    refine ⟨mainCatchEvents, ?_, ?_⟩
    · simp [handleQueryClickTrace]
    · intro e he
      simp only [mainCatchEvents, List.mem_singleton] at he
      rw [he]; exact ⟨rfl, rfl⟩
  | response status chunks readFail =>
    cases hst : resOk status with
    | false =>
      refine ⟨mainCatchEvents, ?_, ?_⟩
      · simp [handleQueryClickTrace, hst]
      · intro e he
        simp only [mainCatchEvents, List.mem_singleton] at he
        rw [he]; exact ⟨rfl, rfl⟩
    | true =>
      refine ⟨chunkEvents s.chatHistory.length Utf8State.start "" chunks
        ++ (if readFail then mainCatchEvents
            else [Event.appendPreviousPrompt q]), ?_, ?_⟩
      · simp [handleQueryClickTrace, hst]
      · intro e he
        rw [List.mem_append] at he
        cases he with
        | inl h' =>
          obtain ⟨t, rfl⟩ := mem_chunkEvents _ _ _ _ e h'
          exact ⟨rfl, rfl⟩
        | inr h' =>
          cases readFail with
          | true =>
            simp only [if_true, mainCatchEvents, List.mem_singleton] at h'
            rw [h']; exact ⟨rfl, rfl⟩
          | false =>
            simp only [if_neg Bool.false_ne_true, List.mem_singleton] at h'
            rw [h']; exact ⟨rfl, rfl⟩

theorem filter_isSetLoadings_nil (l : List Event)
    (hl : ∀ e ∈ l, isSetLoadings e = false) : l.filter isSetLoadings = [] := by
  induction l with
  | nil => rfl
  | cons e l ih =>
    rw [List.filter_cons, hl e (List.mem_cons_self e l)]
    exact ih fun e' he' => hl e' (List.mem_cons_of_mem e he')

/-- Every observable state of a trace that opens with the fixed prologue
and appends turns only in its single `appendTurnPair` update has a history
of either the submission-time length or that length plus two: the turn
pair becomes visible in one atomic step. -/
theorem shape_atomicity (s : SessionState) (q : String) (mid tr : List Event)
    (htr : tr = Event.setShowResult true :: Event.setLoadings true ::
      Event.setRecentPrompt q :: Event.appendTurnPair q :: mid)
    (hmid : ∀ e ∈ mid, isAppendTurnPair e = false) :
    ∀ st ∈ runStates s tr,
      st.chatHistory.length = s.chatHistory.length
      ∨ st.chatHistory.length = s.chatHistory.length + 2 := by
  subst htr
  intro st hst
  simp only [runStates, List.scanl_cons, List.singleton_append, List.mem_cons] at hst
  rcases hst with rfl | rfl | rfl | rfl | hst
  · exact Or.inl rfl
  · exact Or.inl rfl
  · exact Or.inl rfl
  · exact Or.inl rfl
  · refine Or.inr ?_
    have hlen := length_scanl_no_append mid _ hmid st hst
    rw [hlen]
    simp [applyEvent, appendPairUpdater]

/-- Any trace of the form `setLoadings(true) prologue, loadings-silent
middle, final setLoadings(false)` run from an idle state: `loadings` is
false before acquisition, true at every intermediate state strictly between
acquisition and the terminal event, false in the final state, and the trace
performs exactly the two `setLoadings` calls, release last. -/
theorem shape_flag (s : SessionState) (mid tr : List Event)
    (htr : tr = Event.setShowResult true :: Event.setLoadings true ::
      (mid ++ [Event.setLoadings false]))
    (hmid : ∀ e ∈ mid, isSetLoadings e = false) (h₀ : s.loadings = false) :
    (∀ st ∈ (runStates s tr).take 2, st.loadings = false)
    ∧ (∀ st ∈ ((runStates s tr).drop 2).dropLast, st.loadings = true)
    ∧ (List.foldl applyEvent s tr).loadings = false
    ∧ tr.filter isSetLoadings = [Event.setLoadings true, Event.setLoadings false]
    ∧ tr.getLast? = some (Event.setLoadings false) := by
  subst htr
  have hmain := loadings_mid mid (applyEvent (applyEvent s (Event.setShowResult true))
    (Event.setLoadings true)) rfl hmid
  refine ⟨?_, ?_, ?_, ?_, ?_⟩
  · intro st hst
    simp only [runStates, List.scanl_cons, List.singleton_append, List.take_cons,
      List.take_zero, List.mem_cons, List.mem_singleton, List.take] at hst
    rcases hst with rfl | rfl | h'
    · exact h₀
    · exact h₀
    · exact absurd h' (List.not_mem_nil st)
  · intro st hst
    simp only [runStates, List.scanl_cons, List.singleton_append, List.drop] at hst
    exact hmain.1 st hst
  · simp only [List.foldl_cons]
    exact hmain.2
  · rw [List.filter_cons, List.filter_cons, List.filter_append, List.filter_cons,
      filter_isSetLoadings_nil mid hmid]
    rfl
  · show (Event.setShowResult true :: Event.setLoadings true :: mid
      ++ [Event.setLoadings false]).getLast? = some (Event.setLoadings false)
    exact List.getLast?_concat _

/-- Lengths along a chain of non-decreasing strings: every element is at
most as long as the final one. -/
theorem chain_le_last : ∀ (l : List String) (a : String),
    List.Chain' (fun x y : String => x.length ≤ y.length) (l ++ [a]) →
    ∀ u ∈ l, u.length ≤ a.length := by
  intro l
  induction l with
  | nil => intro a _ u hu; exact absurd hu (List.not_mem_nil u)
  | cons b tail ih =>
    intro a hch u hu
    cases tail with
    | nil =>
      rw [List.mem_singleton] at hu
      subst hu
      exact (List.chain'_cons.mp hch).1
    | cons c tl =>
      rw [List.cons_append, List.cons_append] at hch
      have h₁ := List.chain'_cons.mp hch
      have h₂ := ih a (by rw [List.cons_append]; exact h₁.2)
      rw [List.mem_cons] at hu
      cases hu with
      | inl hb =>
        subst hb
        exact Nat.le_trans h₁.1 (h₂ c (List.mem_cons_self c tl))
      | inr ht => exact h₂ u ht

theorem length_foldl_streamUpdater (idx : Nat) : ∀ (ts : List String) (h : List Turn),
    (ts.foldl (fun acc u => streamUpdater idx u acc) h).length = h.length := by
  intro ts
  induction ts with
  | nil => intro h; rfl
  | cons t ts ih =>
    intro h
    rw [List.foldl_cons, ih, length_streamUpdater]

/-- Every per-chunk update event of an accepted `handleSend` trace targets
the bot turn of this submission: its `loaderIndex` is the history length at
submission time. -/
theorem streamUpdate_mem_handleSendTrace (s : SessionState) (outcome : FetchOutcome)
    (li : Nat) (acc : String)
    (hmem : Event.streamUpdate li acc ∈ handleSendTrace s outcome) :
    li = s.chatHistory.length := by
  by_cases hin : s.input = ""
  · simp only [handleSendTrace, if_pos hin] at hmem
    exact absurd hmem (List.not_mem_nil _)
  · cases outcome with
    | connectFail =>
      simp [handleSendTrace, hin, sidebarCatchEvents, requestEvent] at hmem
    | response status chunks readFail =>
      cases hst : resOk status with
      | false =>
        simp [handleSendTrace, hin, hst, sidebarCatchEvents, requestEvent] at hmem
      | true =>
        simp only [handleSendTrace, if_neg hin, hst, if_true, List.cons_append,
          List.nil_append, List.append_assoc, List.mem_cons, List.mem_append,
          List.mem_singleton, requestEvent, sidebarCatchEvents] at hmem
        rcases hmem with h | h | h | h | h | h | hmem
        · exact absurd h (by simp)
        · exact absurd h (by simp)
        · exact absurd h (by simp)
        · exact absurd h (by simp)
        · exact absurd h (by simp)
        · exact absurd h (by simp)
        · rcases hmem with hchunk | hrest
          · obtain ⟨t, ht⟩ := mem_chunkEvents _ _ _ _ _ hchunk
            exact (Event.streamUpdate.injEq _ _ _ _).mp ht |>.1
          · cases readFail with
            | true =>
              simp only [if_true, List.mem_cons, List.mem_singleton] at hrest
              rcases hrest with h | h | h <;> simp at h
            | false =>
              simp only [if_neg Bool.false_ne_true, List.mem_cons, List.mem_singleton]
                at hrest
              rcases hrest with h | h | h <;> simp at h

/-- Every per-chunk update event of a `handleQueryClick` trace targets the
bot turn of this submission. -/
theorem streamUpdate_mem_handleQueryClickTrace (q : String) (s : SessionState)
    (outcome : FetchOutcome) (li : Nat) (acc : String)
    (hmem : Event.streamUpdate li acc ∈ handleQueryClickTrace q s outcome) :
    li = s.chatHistory.length := by
  cases outcome with
  | connectFail =>
    simp [handleQueryClickTrace, mainCatchEvents, requestEvent] at hmem
  | response status chunks readFail =>
    cases hst : resOk status with
    | false =>
      simp [handleQueryClickTrace, hst, mainCatchEvents, requestEvent] at hmem
    | true =>
      simp only [handleQueryClickTrace, hst, if_true, List.cons_append, List.nil_append,
        List.append_assoc, List.mem_cons, List.mem_append, List.mem_singleton,
        requestEvent, mainCatchEvents] at hmem
      rcases hmem with h | h | h | h | h | hmem
      · exact absurd h (by simp)
      · exact absurd h (by simp)
      · exact absurd h (by simp)
      · exact absurd h (by simp)
      · exact absurd h (by simp)
      · rcases hmem with hchunk | hrest
        · obtain ⟨t, ht⟩ := mem_chunkEvents _ _ _ _ _ hchunk
          exact (Event.streamUpdate.injEq _ _ _ _).mp ht |>.1
        · cases readFail with
          | true =>
            simp only [if_true, List.mem_singleton] at hrest
            simp at hrest
          | false =>
            simp only [if_neg Bool.false_ne_true, List.mem_singleton] at hrest
            simp at hrest

/-! ## Run characterization lemmas -/

/-- Running the read-loop events on a state: with no chunks nothing happens;
otherwise the chat history receives the per-chunk updates, of which only the
last survives, carrying the whole decoded text. -/
theorem foldl_chunkEvents (li : Nat) :
    ∀ (cs : List (List Nat)) (st : Utf8State) (acc : List Char) (s : SessionState),
      List.foldl applyEvent s (chunkEvents li st (String.mk acc) cs) =
        if cs.isEmpty then s
        else { s with
                chatHistory :=
                  streamUpdater li (String.mk (acc ++ (utf8DecodeChunks st cs).2))
                    s.chatHistory } := by
  intro cs
  induction cs with
  | nil => intro st acc s; simp [chunkEvents]
  | cons c cs ih =>
    intro st acc s
    simp only [chunkEvents, List.foldl_cons, List.isEmpty_cons, if_neg Bool.false_ne_true,
      applyEvent, string_mk_append, ih]
    cases hcs : cs.isEmpty with
    | true =>
      have hnil : cs = [] := List.isEmpty_iff.mp hcs
      subst hnil
      simp [utf8DecodeChunks]
    | false =>
      simp only [if_neg Bool.false_ne_true, streamUpdater_streamUpdater, utf8DecodeChunks,
        List.append_assoc]

theorem string_empty_mk : ("" : String) = String.mk [] := rfl

/-- At every point where a catch block runs, the history already holds the
appended turn pair, so its `map` callback executes and the out-of-scope
`loaderIndex` lookup throws. -/
@[simp] theorem catchUpdater_append_pair (h₀ : List Turn) (u b : Turn) :
    catchUpdater (h₀ ++ [u, b]) = Except.error JsError.referenceError := by
  have hne : (h₀ ++ [u, b]).isEmpty = false := by
    cases h₀ <;> rfl
  simp [catchUpdater, hne, loaderIndexInCatchScope]

@[simp] theorem applyEvent_requestEvent (s : SessionState) (q : String) :
    applyEvent s (requestEvent q) = s := rfl

/-- Final state of `handleSend` when the `fetch` call itself fails: the
turn pair is appended, but the catch block's history update throws a
`ReferenceError`, so the placeholder bot turn survives unchanged. -/
theorem handleSend_run_connectFail (s : SessionState) (h : ¬s.input = "") :
    handleSend s FetchOutcome.connectFail =
      { s with
          chatHistory := s.chatHistory ++ [userTurn s.input, pendingBotTurn]
          input := ""
          loadings := false
          showResult := true
          recentPrompt := s.input
          response := errorMessage } := by
  simp [handleSend, handleSendTrace, h, sidebarCatchEvents, requestEvent, applyEvent,
    appendPairUpdater]

/-- Final state of `handleSend` on a non-2xx response: identical to the
connection-failure case (`if (!res.ok) throw` enters the same catch block). -/
theorem handleSend_run_notOk (s : SessionState) (status : Nat) (chunks : List (List Nat))
    (readFail : Bool) (h : ¬s.input = "") (hst : resOk status = false) :
    handleSend s (FetchOutcome.response status chunks readFail) =
      { s with
          chatHistory := s.chatHistory ++ [userTurn s.input, pendingBotTurn]
          input := ""
          loadings := false
          showResult := true
          recentPrompt := s.input
          response := errorMessage } := by
  simp [handleSend, handleSendTrace, h, hst, sidebarCatchEvents, requestEvent, applyEvent,
    appendPairUpdater]

/-- Final state of `handleSend` on a 2xx response: the bot turn carries the
decoded accumulated text of the chunks that arrived (or is still the
placeholder when none arrived); on a clean end of stream the question is
appended to `previousPrompt`, while a mid-stream read failure enters the
catch block, whose history update throws, leaving the partial text in
place. -/
theorem handleSend_run_ok (s : SessionState) (status : Nat) (chunks : List (List Nat))
    (readFail : Bool) (h : ¬s.input = "") (hst : resOk status = true) :
    handleSend s (FetchOutcome.response status chunks readFail) =
      { s with
          chatHistory := s.chatHistory ++
            [userTurn s.input,
              if chunks.isEmpty then pendingBotTurn
              else { pendingBotTurn with
                      text := decodedText Utf8State.start chunks
                      loading := some false }]
          previousPrompt := s.previousPrompt ++ if readFail then [] else [s.input]
          input := ""
          loadings := false
          showResult := true
          recentPrompt := s.input
          response := if readFail then errorMessage else decodedText Utf8State.start chunks } := by
  have hlen : (s.chatHistory ++ [userTurn s.input, pendingBotTurn]).length
      = s.chatHistory.length + 2 := by simp
  simp only [handleSend, handleSendTrace, if_neg h, hst, if_true, List.append_assoc,
    List.cons_append, List.nil_append, List.foldl_cons, requestEvent, applyEvent,
    List.foldl_append, string_empty_mk, foldl_chunkEvents, appendPairUpdater]
  cases hcs : chunks.isEmpty with
  | true =>
    have hnil : chunks = [] := List.isEmpty_iff.mp hcs
    subst hnil
    cases readFail <;>
      simp [applyEvent, decodedText, utf8DecodeChunks, sidebarCatchEvents, List.foldl_cons]
  | false =>
    cases readFail <;>
      simp [applyEvent, decodedText, sidebarCatchEvents, List.foldl_cons,
        streamUpdater_appendPair, pendingBotTurn]

/-- For every accepted `handleSend` run, whatever the outcome, the final
history is two turns longer than at submission time. -/
theorem handleSend_accepted_length (s : SessionState) (outcome : FetchOutcome)
    (h : ¬s.input = "") :
    (handleSend s outcome).chatHistory.length = s.chatHistory.length + 2 := by
  cases outcome with
  | connectFail => rw [handleSend_run_connectFail s h]; simp
  | response status chunks readFail =>
    cases hst : resOk status with
    | false => rw [handleSend_run_notOk s status chunks readFail h hst]; simp
    | true =>
      rw [handleSend_run_ok s status chunks readFail h hst]
      cases chunks.isEmpty <;> simp

/-- The element right after a freshly appended pair is the second appended
turn. -/
theorem get?_append_pair (h₀ : List Turn) (u b : Turn) :
    (h₀ ++ [u, b]).get? (h₀.length + 1) = some b := by
  rw [List.get?_append_right (by omega)]
  have harith : h₀.length + 1 - h₀.length = 1 := by omega
  rw [harith]
  rfl

/-- Bot-turn text after a successful ingestion: the decoded accumulated
text of all chunks (still `""` when the body delivered no chunks). -/
theorem handleSend_success_botText (s : SessionState) (status : Nat)
    (chunks : List (List Nat)) (h : ¬s.input = "") (hok : resOk status = true) :
    ((handleSend s (FetchOutcome.response status chunks false)).chatHistory.get?
        (s.chatHistory.length + 1)).map Turn.text
      = some (decodedText Utf8State.start chunks) := by
  rw [handleSend_run_ok s status chunks false h hok]
  cases chunks with
  | nil =>
    show ((_ ++ [userTurn s.input, _]).get? _).map _ = _
    rw [get?_append_pair]
    rfl
  | cons c cs =>
    show ((_ ++ [userTurn s.input, _]).get? _).map _ = _
    rw [get?_append_pair]
    rfl

/-- Accepted prompts after a successful ingestion: exactly the submitted
question is appended. -/
theorem handleSend_success_prompts (s : SessionState) (status : Nat)
    (chunks : List (List Nat)) (h : ¬s.input = "") (hok : resOk status = true) :
    (handleSend s (FetchOutcome.response status chunks false)).previousPrompt
      = s.previousPrompt ++ [s.input] := by
  rw [handleSend_run_ok s status chunks false h hok]
  rfl

/-- Final state of `handleQueryClick` when the `fetch` call itself fails. -/
theorem handleQueryClick_run_connectFail (q : String) (s : SessionState) :
    handleQueryClick q s FetchOutcome.connectFail =
      { s with
          chatHistory := s.chatHistory ++ [userTurn q, pendingBotTurn]
          loadings := false
          showResult := true
          recentPrompt := q } := by
  simp [handleQueryClick, handleQueryClickTrace, mainCatchEvents, requestEvent, applyEvent,
    appendPairUpdater]

/-- Final state of `handleQueryClick` on a non-2xx response. -/
theorem handleQueryClick_run_notOk (q : String) (s : SessionState) (status : Nat)
    (chunks : List (List Nat)) (readFail : Bool) (hst : resOk status = false) :
    handleQueryClick q s (FetchOutcome.response status chunks readFail) =
      { s with
          chatHistory := s.chatHistory ++ [userTurn q, pendingBotTurn]
          loadings := false
          showResult := true
          recentPrompt := q } := by
  simp [handleQueryClick, handleQueryClickTrace, hst, mainCatchEvents, requestEvent, applyEvent,
    appendPairUpdater]

/-- Final state of `handleQueryClick` on a 2xx response. -/
theorem handleQueryClick_run_ok (q : String) (s : SessionState) (status : Nat)
    (chunks : List (List Nat)) (readFail : Bool) (hst : resOk status = true) :
    handleQueryClick q s (FetchOutcome.response status chunks readFail) =
      { s with
          chatHistory := s.chatHistory ++
            [userTurn q,
              if chunks.isEmpty then pendingBotTurn
              else { pendingBotTurn with
                      text := decodedText Utf8State.start chunks
                      loading := some false }]
          previousPrompt := s.previousPrompt ++ if readFail then [] else [q]
          loadings := false
          showResult := true
          recentPrompt := q } := by
  simp only [handleQueryClick, handleQueryClickTrace, hst, if_true, List.append_assoc,
    List.cons_append, List.nil_append, List.foldl_cons, requestEvent, applyEvent,
    List.foldl_append, string_empty_mk, foldl_chunkEvents, appendPairUpdater]
  cases hcs : chunks.isEmpty with
  | true =>
    have hnil : chunks = [] := List.isEmpty_iff.mp hcs
    subst hnil
    cases readFail <;>
      simp [applyEvent, decodedText, utf8DecodeChunks, mainCatchEvents, List.foldl_cons]
  | false =>
    cases readFail <;>
      simp [applyEvent, decodedText, mainCatchEvents, List.foldl_cons,
        streamUpdater_appendPair, pendingBotTurn]


/-! ## Concrete fixtures -/

/-- Fresh session state, as created by the Context provider and `Main`,
with the given current input text. -/
def freshState (q : String) : SessionState :=
  { chatHistory := [], previousPrompt := [], input := q, loadings := false,
    showResult := false, recentPrompt := "", response := "" }

/-- A mid-flight state: the first submission's turn pair is already in the
history, its request is still streaming (`loadings = true`), and the user
has typed a second question into the input box. -/
def midFlightState : SessionState :=
  { chatHistory := [userTurn "q1", pendingBotTurn], previousPrompt := [],
    input := "q2", loadings := true, showResult := true, recentPrompt := "q1",
    response := "" }

/-- Byte encoding of an ASCII test string. -/
def asciiBytes (s : String) : List Nat := s.data.map Char.toNat

/-- The chunk sequence of the spec's deadline scenario. -/
def deadlineChunks : List (List Nat) :=
  [asciiBytes "The dead", asciiBytes "line is Fri", asciiBytes "day."]

/-! ## Claims -/

/-- C1, counterexample: a submission made while a request is in flight
(`loadings = true`) is accepted whenever the typed input is non-empty —
the code never reads a pending flag.  From a mid-flight state with two
turns, submitting "q2" grows the history to four turns and issues a second
network request, contradicting "history length does not change". -/
theorem pending_submission_accepted_counterexample :
    midFlightState.loadings = true
    ∧ midFlightState.chatHistory.length = 2
    ∧ (handleSend midFlightState
        (FetchOutcome.response 200 [asciiBytes "Hi"] false)).chatHistory.length = 4
    ∧ requestEvent "q2" ∈ handleSendTrace midFlightState
        (FetchOutcome.response 200 [asciiBytes "Hi"] false) := by
  decide

/-- C1, amended: the only rejection the code performs is the empty-input
check `if (!input) return`.  Because an accepted submission clears the
input, re-submitting while pending without typing new text is a silent
no-op; but a submission with non-empty input is accepted even while
`loadings = true`: two turns are appended and a request is issued. -/
theorem pending_submission_not_guarded (s : SessionState) (outcome : FetchOutcome)
    (hp : s.loadings = true) :
    (s.input = "" → handleSendTrace s outcome = [] ∧ handleSend s outcome = s)
    ∧ (¬s.input = "" →
        (handleSend s outcome).chatHistory.length = s.chatHistory.length + 2
        ∧ requestEvent s.input ∈ handleSendTrace s outcome) := by
  constructor
  · intro he
    constructor
    · simp [handleSendTrace, he]
    · simp [handleSend, handleSendTrace, he]
  · intro hne
    refine ⟨handleSend_accepted_length s outcome hne, ?_⟩
    obtain ⟨tail, htr, _⟩ := handleSendTrace_shape s outcome hne
    rw [htr]
    simp

theorem pending_submission_not_guarded_witness :
    (handleSend midFlightState FetchOutcome.connectFail).chatHistory.length = 4
    ∧ requestEvent "q2" ∈ handleSendTrace midFlightState FetchOutcome.connectFail := by
  have h := (pending_submission_not_guarded midFlightState FetchOutcome.connectFail
    rfl).2 (by decide)
  exact ⟨h.1, h.2⟩

/-- C2 (code bug): on a failed ingestion the catch block is meant to
replace the bot turn's text with the fixed error message
("// Replace loader with error message"), but its updater references
`loaderIndex`, which is `const`-declared inside the `try` block and out of
scope in the `catch` block, so the update throws a `ReferenceError`
instead.  Evaluating the code at the failing inputs: after a 500 response
to "Ping" the bot turn still holds the pending placeholder (text `""`,
`loading: true`), not the error message; after a mid-stream read failure
the shown partial text survives instead of being replaced; in both cases
`previousPrompt` is unchanged and the catch updater yields the
`ReferenceError`. -/
theorem failed_ingestion_error_message_never_applied :
    (handleSend (freshState "Ping") (FetchOutcome.response 500 [] false)).chatHistory.get? 1
        = some pendingBotTurn
    ∧ ¬pendingBotTurn.text = errorMessage
    ∧ pendingBotTurn.loading = some true
    ∧ (handleSend (freshState "Ping") (FetchOutcome.response 500 [] false)).previousPrompt = []
    ∧ catchUpdater
        (handleSend (freshState "Ping") (FetchOutcome.response 500 [] false)).chatHistory
        = Except.error JsError.referenceError
    ∧ ((handleSend (freshState "Par")
          (FetchOutcome.response 200 [asciiBytes "par"] true)).chatHistory.get? 1).map
        Turn.text = some "par" :=
  ⟨by decide, by decide, by decide, by decide, rfl, by decide⟩

/-- C3, counterexample: a stream whose last chunk ends in an incomplete
multi-byte sequence (the single byte 0xC3).  The claim requires the final
residual to be decoded with replacement-character substitution, i.e. the
final text "�"; the code never issues the flushing decode, so the bot
turn's final text is `""` — the residual is silently dropped. -/
theorem final_residual_dropped_counterexample :
    ((handleSend (freshState "q")
        (FetchOutcome.response 200 [[0xC3]] false)).chatHistory.get? 1).map Turn.text
      = some ""
    ∧ specChunkDecodeFinal [[0xC3]] = "�"
    ∧ ¬("" : String) = "�" := by
  decide

/-- C3, amended: a multi-byte character split across chunk boundaries is
neither dropped nor corrupted — streaming decode equals the decode of the
concatenated bytes — but a still-incomplete residual at end-of-stream is
silently dropped: the final bot text is exactly the unflushed decode of
the concatenated bytes, because the code never performs the final
non-streaming `decode()` call that would substitute the replacement
character. -/
theorem split_chars_reassembled_residual_dropped :
    (∀ (st : Utf8State) (cs : List (List Nat)),
        utf8DecodeChunks st cs = utf8DecodeBytes st cs.flatten)
    ∧ (∀ (s : SessionState) (status : Nat) (chunks : List (List Nat)),
        ¬s.input = "" → resOk status = true →
          ((handleSend s (FetchOutcome.response status chunks false)).chatHistory.get?
              (s.chatHistory.length + 1)).map Turn.text
            = some (String.mk (utf8DecodeBytes Utf8State.start chunks.flatten).2)) := by
  constructor
  · exact fun st cs => utf8DecodeChunks_eq_flatten cs st
  · intro s status chunks h hok
    have hbot := handleSend_success_botText s status chunks h hok
    rw [decodedText, utf8DecodeChunks_eq_flatten] at hbot
    exact hbot

theorem split_chars_reassembled_residual_dropped_witness :
    utf8DecodeChunks Utf8State.start [[0xC3], [0xA9]]
        = utf8DecodeBytes Utf8State.start [0xC3, 0xA9]
    ∧ ((handleSend (freshState "q")
          (FetchOutcome.response 200 [[0xC3], [0xA9]] false)).chatHistory.get? 1).map
        Turn.text
        = some (String.mk (utf8DecodeBytes Utf8State.start [0xC3, 0xA9]).2)
    ∧ decodedText Utf8State.start [[0xC3], [0xA9]] = "é" := by
  refine ⟨split_chars_reassembled_residual_dropped.1 Utf8State.start [[0xC3], [0xA9]],
    split_chars_reassembled_residual_dropped.2 (freshState "q") 200 [[0xC3], [0xA9]]
      (by decide) (by decide), by decide⟩

/-- C4: for every accepted submission whose stream ends cleanly after
chunks c1..cn, the targeted bot turn's final text is the concatenation of
the decoded chunks in arrival order, equal to the decode of the
concatenated bytes (multi-byte boundaries respected), and
`previousPrompt` gains exactly the submitted question at its end. -/
theorem success_final_text_and_prompts (s : SessionState) (status : Nat)
    (chunks : List (List Nat)) (h : ¬s.input = "") (hok : resOk status = true) :
    ((handleSend s (FetchOutcome.response status chunks false)).chatHistory.get?
        (s.chatHistory.length + 1)).map Turn.text
      = some (decodedText Utf8State.start chunks)
    ∧ decodedText Utf8State.start chunks
        = String.mk (utf8DecodeBytes Utf8State.start chunks.flatten).2
    ∧ (handleSend s (FetchOutcome.response status chunks false)).previousPrompt
        = s.previousPrompt ++ [s.input] := by
  refine ⟨handleSend_success_botText s status chunks h hok, ?_,
    handleSend_success_prompts s status chunks h hok⟩
  rw [decodedText, utf8DecodeChunks_eq_flatten]

theorem success_final_text_and_prompts_witness :
    (((handleSend (freshState "What is the deadline?")
          (FetchOutcome.response 200 deadlineChunks false)).chatHistory.get? 1).map
        Turn.text = some (decodedText Utf8State.start deadlineChunks))
    ∧ decodedText Utf8State.start deadlineChunks = "The deadline is Friday."
    ∧ (handleSend (freshState "What is the deadline?")
          (FetchOutcome.response 200 deadlineChunks false)).previousPrompt
        = ["What is the deadline?"] := by
  refine ⟨(success_final_text_and_prompts (freshState "What is the deadline?") 200
      deadlineChunks (by decide) (by decide)).1, by decide,
    (success_final_text_and_prompts (freshState "What is the deadline?") 200
      deadlineChunks (by decide) (by decide)).2.2⟩

/-- C5: an accepted submission appends exactly one Complete user turn with
the question text and one pending bot turn with empty text, in a single
atomic update (the one `setChatHistory` call of the submission step): after
the first four steps the pair is present, and no observable state of
either handler's run ever shows a history of any length other than the
submission-time length or that length plus two. -/
theorem submit_appends_turn_pair_atomically (s : SessionState) (outcome : FetchOutcome)
    (h : ¬s.input = "") :
    (List.foldl applyEvent s ((handleSendTrace s outcome).take 4)).chatHistory
        = s.chatHistory ++ [userTurn s.input, pendingBotTurn]
    ∧ (∀ st ∈ runStates s (handleSendTrace s outcome),
        st.chatHistory.length = s.chatHistory.length
        ∨ st.chatHistory.length = s.chatHistory.length + 2)
    ∧ (List.foldl applyEvent s ((handleQueryClickTrace s.input s outcome).take 4)).chatHistory
        = s.chatHistory ++ [userTurn s.input, pendingBotTurn]
    ∧ (∀ st ∈ runStates s (handleQueryClickTrace s.input s outcome),
        st.chatHistory.length = s.chatHistory.length
        ∨ st.chatHistory.length = s.chatHistory.length + 2) := by
  obtain ⟨tail, htr, htail⟩ := handleSendTrace_shape s outcome h
  obtain ⟨tail₂, htr₂, htail₂⟩ := handleQueryClickTrace_shape s.input s outcome
  refine ⟨?_, ?_, ?_, ?_⟩
  · rw [htr]
    simp [List.take_succ_cons, applyEvent, appendPairUpdater]
  · refine shape_atomicity s s.input
      (Event.setInput "" :: requestEvent s.input :: (tail ++ [Event.setLoadings false]))
      _ (by rw [htr]) ?_
    intro e he
    rcases List.mem_cons.mp he with rfl | he
    · rfl
    rcases List.mem_cons.mp he with rfl | he
    · rfl
    rcases List.mem_append.mp he with he | he
    · exact (htail e he).2
    · rw [List.mem_singleton] at he
      rw [he]
      rfl
  · rw [htr₂]
    simp [List.take_succ_cons, applyEvent, appendPairUpdater]
  · refine shape_atomicity s s.input
      (requestEvent s.input :: (tail₂ ++ [Event.setLoadings false]))
      _ (by rw [htr₂]) ?_
    intro e he
    rcases List.mem_cons.mp he with rfl | he
    · rfl
    rcases List.mem_append.mp he with he | he
    · exact (htail₂ e he).2
    · rw [List.mem_singleton] at he
      rw [he]
      rfl

theorem submit_appends_turn_pair_atomically_witness :
    (List.foldl applyEvent (freshState "Q")
        ((handleSendTrace (freshState "Q") FetchOutcome.connectFail).take 4)).chatHistory
      = [userTurn "Q", pendingBotTurn] :=
  (submit_appends_turn_pair_atomically (freshState "Q") FetchOutcome.connectFail
    (by decide)).1

/-- C6: for every accepted submission, from an idle state, the pending flag
(`loadings`) is false before the acquisition step, true at every
observable state strictly between acquisition and the terminal release,
and false afterwards; the trace performs exactly two `setLoadings` calls —
the acquisition and one release — with the release as the very last step
(the `finally` block), on every exit path including the failing ones, for
both handlers. -/
theorem pending_flag_released_every_path (s : SessionState) (outcome : FetchOutcome)
    (h : ¬s.input = "") (h₀ : s.loadings = false) :
    ((∀ st ∈ (runStates s (handleSendTrace s outcome)).take 2, st.loadings = false)
      ∧ (∀ st ∈ ((runStates s (handleSendTrace s outcome)).drop 2).dropLast,
          st.loadings = true)
      ∧ (handleSend s outcome).loadings = false
      ∧ (handleSendTrace s outcome).filter isSetLoadings
          = [Event.setLoadings true, Event.setLoadings false]
      ∧ (handleSendTrace s outcome).getLast? = some (Event.setLoadings false))
    ∧ ((handleQueryClick s.input s outcome).loadings = false
      ∧ (handleQueryClickTrace s.input s outcome).filter isSetLoadings
          = [Event.setLoadings true, Event.setLoadings false]) := by
  obtain ⟨tail, htr, htail⟩ := handleSendTrace_shape s outcome h
  obtain ⟨tail₂, htr₂, htail₂⟩ := handleQueryClickTrace_shape s.input s outcome
  have hmid : ∀ e ∈ Event.setRecentPrompt s.input :: Event.appendTurnPair s.input ::
      Event.setInput "" :: requestEvent s.input :: tail, isSetLoadings e = false := by
    intro e he
    rcases List.mem_cons.mp he with rfl | he
    · rfl
    rcases List.mem_cons.mp he with rfl | he
    · rfl
    rcases List.mem_cons.mp he with rfl | he
    · rfl
    rcases List.mem_cons.mp he with rfl | he
    · rfl
    exact (htail e he).1
  have hmid₂ : ∀ e ∈ Event.setRecentPrompt s.input :: Event.appendTurnPair s.input ::
      requestEvent s.input :: tail₂, isSetLoadings e = false := by
    intro e he
    rcases List.mem_cons.mp he with rfl | he
    · rfl
    rcases List.mem_cons.mp he with rfl | he
    · rfl
    rcases List.mem_cons.mp he with rfl | he
    · rfl
    exact (htail₂ e he).1
  have hs := shape_flag s
    (Event.setRecentPrompt s.input :: Event.appendTurnPair s.input ::
      Event.setInput "" :: requestEvent s.input :: tail)
    (handleSendTrace s outcome) (by rw [htr]; rfl) hmid h₀
  have hq := shape_flag s
    (Event.setRecentPrompt s.input :: Event.appendTurnPair s.input ::
      requestEvent s.input :: tail₂)
    (handleQueryClickTrace s.input s outcome) (by rw [htr₂]; rfl) hmid₂ h₀
  exact ⟨⟨hs.1, hs.2.1, hs.2.2.1, hs.2.2.2.1, hs.2.2.2.2⟩, hq.2.2.1, hq.2.2.2.1⟩

theorem pending_flag_released_every_path_witness :
    (handleSend (freshState "Q") FetchOutcome.connectFail).loadings = false
    ∧ (handleSendTrace (freshState "Q") FetchOutcome.connectFail).filter isSetLoadings
        = [Event.setLoadings true, Event.setLoadings false] := by
  have h := pending_flag_released_every_path (freshState "Q") FetchOutcome.connectFail
    (by decide) rfl
  exact ⟨h.1.2.2.1, h.1.2.2.2.1⟩

/-- C7, counterexample: a whitespace-only question.  The guard
`if (!input) return` tests JS string falsiness, which only the empty
string satisfies, so the single-space question " " is accepted: two turns
are created and a network request is issued, contradicting "every empty or
blank (whitespace-only) question is rejected". -/
theorem whitespace_question_accepted_counterexample :
    (freshState " ").input = " "
    ∧ (handleSend (freshState " ")
        (FetchOutcome.response 200 [] false)).chatHistory.length = 2
    ∧ requestEvent " " ∈ handleSendTrace (freshState " ")
        (FetchOutcome.response 200 [] false) := by
  decide

/-- C7, amended: only the empty question is rejected (`if (!input) return`
tests falsiness, and `""` is the only falsy string).  The rejection is
silent and happens before anything else: no state update is performed at
all — no turns, no request, `loadings` unchanged, no error. -/
theorem empty_question_rejected (s : SessionState) (outcome : FetchOutcome)
    (h : s.input = "") :
    handleSendTrace s outcome = [] ∧ handleSend s outcome = s := by
  constructor
  · simp [handleSendTrace, h]
  · simp [handleSend, handleSendTrace, h]

theorem empty_question_rejected_witness :
    handleSendTrace (freshState "") FetchOutcome.connectFail = []
    ∧ handleSend (freshState "") FetchOutcome.connectFail = freshState "" :=
  empty_question_rejected (freshState "") FetchOutcome.connectFail rfl

/-- C8, counterexample: the empty question.  `handleSend` rejects it
(`if (!input) return`) and leaves the history untouched, while
`handleQueryClick` has no such guard and appends a turn pair and issues a
request even for `""`, so the two entry points do not implement the same
submission behaviour. -/
theorem entry_points_differ_on_empty_counterexample :
    (handleSend (freshState "") FetchOutcome.connectFail).chatHistory = []
    ∧ (handleQueryClick "" (freshState "") FetchOutcome.connectFail).chatHistory
        = [userTurn "", pendingBotTurn]
    ∧ ¬(handleSend (freshState "") FetchOutcome.connectFail).chatHistory
        = (handleQueryClick "" (freshState "") FetchOutcome.connectFail).chatHistory := by
  decide

/-- C8, amended: for every non-empty question and every fetch outcome
(including all failing ones), the two entry points produce the same final
chat history — same turns, texts and loading flags — and the same
accepted-prompts list, when run from the same starting state. -/
theorem entry_points_equivalent_nonempty (q : String) (s : SessionState)
    (outcome : FetchOutcome) (hq : ¬q = "") :
    (handleSend { s with input := q } outcome).chatHistory
        = (handleQueryClick q s outcome).chatHistory
    ∧ (handleSend { s with input := q } outcome).previousPrompt
        = (handleQueryClick q s outcome).previousPrompt := by
  have hq' : ¬({ s with input := q } : SessionState).input = "" := hq
  cases outcome with
  | connectFail =>
    rw [handleSend_run_connectFail _ hq', handleQueryClick_run_connectFail]
    exact ⟨rfl, rfl⟩
  | response status chunks readFail =>
    cases hst : resOk status with
    | false =>
      rw [handleSend_run_notOk _ _ _ _ hq' hst,
        handleQueryClick_run_notOk _ _ _ _ _ hst]
      exact ⟨rfl, rfl⟩
    | true =>
      rw [handleSend_run_ok _ _ _ _ hq' hst,
        handleQueryClick_run_ok _ _ _ _ _ hst]
      exact ⟨rfl, rfl⟩

theorem entry_points_equivalent_nonempty_witness :
    (handleSend { freshState "Hello" with input := "Hello" }
        FetchOutcome.connectFail).chatHistory
      = (handleQueryClick "Hello" (freshState "Hello")
          FetchOutcome.connectFail).chatHistory :=
  (entry_points_equivalent_nonempty "Hello" (freshState "Hello")
    FetchOutcome.connectFail (by decide)).1

/-- C9: the per-chunk turn update is a plain overwrite, so after every call
of a call sequence the turn's text equals the last text passed; re-applying
the same text is idempotent; and for a monotonically non-decreasing call
sequence the displayed text never shortens (every earlier text is no longer
than the final one). -/
theorem updateTurnText_monotone_idempotent (h : List Turn) (idx : Nat)
    (pre : List String) (t : String) (hidx : idx + 1 < h.length)
    (hmono : List.Chain' (fun a b : String => a.length ≤ b.length) (pre ++ [t])) :
    (((pre ++ [t]).foldl (fun acc u => streamUpdater idx u acc) h).get? (idx + 1)).map
        Turn.text = some t
    ∧ streamUpdater idx t ((pre ++ [t]).foldl (fun acc u => streamUpdater idx u acc) h)
        = (pre ++ [t]).foldl (fun acc u => streamUpdater idx u acc) h
    ∧ ∀ u ∈ pre, u.length ≤ t.length := by
  have hfold : (pre ++ [t]).foldl (fun acc u => streamUpdater idx u acc) h
      = streamUpdater idx t (pre.foldl (fun acc u => streamUpdater idx u acc) h) := by
    rw [List.foldl_append]
    rfl
  refine ⟨?_, ?_, chain_le_last pre t hmono⟩
  · rw [hfold, get?_streamUpdater]
    have hlen : idx + 1 < (pre.foldl (fun acc u => streamUpdater idx u acc) h).length := by
      rw [length_foldl_streamUpdater]
      exact hidx
    rw [List.get?_eq_get hlen]
    simp
  · rw [hfold, streamUpdater_streamUpdater]

theorem updateTurnText_monotone_idempotent_witness :
    ((((["a"] ++ ["ab"]).foldl (fun acc u => streamUpdater 0 u acc)
        [userTurn "q", pendingBotTurn]).get? 1).map Turn.text = some "ab") :=
  (updateTurnText_monotone_idempotent [userTurn "q", pendingBotTurn] 0 ["a"] "ab"
    (by decide) (List.chain'_cons.mpr ⟨by decide, List.chain'_singleton "ab"⟩)).1

/-- C10: the per-chunk update and the error finalization touch at most the
single turn at the targeted bot index: the updater preserves the history's
length and leaves every index other than `loaderIndex + 1` unchanged; the
catch-block finalization changes nothing at all (its updater throws); and
every per-chunk update event of either handler targets
`loaderIndex = history length at submission time`, i.e. index
`length + 1`, the freshly appended bot turn. -/
theorem stream_update_frame_properties (h : List Turn) (idx : Nat) (t : String) :
    ((streamUpdater idx t h).length = h.length
      ∧ ∀ j, ¬j = idx + 1 → (streamUpdater idx t h).get? j = h.get? j)
    ∧ (∀ s : SessionState, applyEvent s Event.catchUpdate = s)
    ∧ (∀ (s : SessionState) (outcome : FetchOutcome) (li : Nat) (acc : String),
        Event.streamUpdate li acc ∈ handleSendTrace s outcome
          → li = s.chatHistory.length)
    ∧ (∀ (q : String) (s : SessionState) (outcome : FetchOutcome) (li : Nat) (acc : String),
        Event.streamUpdate li acc ∈ handleQueryClickTrace q s outcome
          → li = s.chatHistory.length) :=
  ⟨⟨length_streamUpdater idx t h, fun j hj => get?_streamUpdater_ne idx t h j hj⟩,
    applyEvent_catchUpdate,
    fun s outcome li acc hm => streamUpdate_mem_handleSendTrace s outcome li acc hm,
    fun q s outcome li acc hm => streamUpdate_mem_handleQueryClickTrace q s outcome li acc hm⟩

theorem stream_update_frame_properties_witness :
    (streamUpdater 0 "x" [userTurn "q", pendingBotTurn]).get? 0 = some (userTurn "q")
    ∧ (streamUpdater 0 "x" [userTurn "q", pendingBotTurn]).length = 2 := by
  have h := stream_update_frame_properties [userTurn "q", pendingBotTurn] 0 "x"
  exact ⟨h.1.2 0 (by decide), h.1.1⟩
